import Mathlib

/-!
# Verification of the RIT Monte Carlo integration pair

Shallow embedding of `src/numerical/integrate/monte_carlo_average.py` and
`src/numerical/integrate/monte_carlo_hit_or_miss.py`.

Modelling conventions:
* Python floats are embedded as rationals `ℚ`; `math.sqrt` is an explicit
  function parameter `sqrt : ℚ → ℚ` (its value is opaque to the algorithms,
  which only combine it arithmetically and compare it to the threshold).
* The process-wide random generator is a stream `r : ℕ → ℚ` of unit draws,
  consumed in order; `random.uniform(a, b)` is `a + (b - a) * r k` where `k`
  is the number of draws made so far (tracked in the state as `k`).
* The unbounded `while` loops carry a `fuel : ℕ` argument; exhausting the
  fuel yields the distinguished result `.error .outOfFuel`, which no claim
  ever counts as a normal return.
* Python exceptions are the `MCError` constructors: `TypeError` for a bad
  integrand, `RuntimeError` on the iteration cap, `NameError` for reading a
  never-assigned local, `ValueError` for `max([])`, `ZeroDivisionError` for
  division by a zero sample count.
* The Python functions return the bare area and print epsilon / iteration
  counts; the embedding returns those printed observables alongside the area
  in `AvgResult` / `HomResult` so that the claims about them are statable.
-/

/-- Errors raised by either estimator (Python exception types). -/
inductive MCError where
  | typeError
  | iterationLimit
  | nameError
  | valueError
  | zeroDivision
  | outOfFuel
deriving DecidableEq

/-- `random.uniform(a, b)` applied to the unit draw `x`. -/
def uniform (a b x : ℚ) : ℚ := a + (b - a) * x

/-- `epsilon >= acceptableError` where `none` stands for the initial
`float('inf')` value of `epsilon` (infinity compares `>=` anything). -/
def geInfB (e : Option ℚ) (acc : ℚ) : Bool :=
  match e with
  | none => true
  | some x => decide (acc ≤ x)

/-- The integrand argument of `monte_carlo_average`: a Python function, a
list/tuple of y-values, or any other value. -/
inductive AvgIntegrand where
  | fn (f : ℚ → ℚ)
  | table (ys : List ℚ)
  | other

/-- The integrand argument of `monte_carlo_hit_or_miss`: a Python function, a
2 x M list/tuple (row 0 the x-values, row 1 the y-values), or anything else. -/
inductive HomIntegrand where
  | fn (f : ℚ → ℚ)
  | table (row0 row1 : List ℚ)
  | other

/-- Observables of one `monte_carlo_average` call: the returned area plus the
printed error estimate and iteration count (`none` = still `float('inf')`). -/
structure AvgResult where
  area : ℚ
  epsilon : Option ℚ
  iterations : ℕ
deriving DecidableEq

/-- Observables of one `monte_carlo_hit_or_miss` call. -/
structure HomResult where
  area : ℚ
  epsilon : Option ℚ
  hits : ℕ
  samples : ℕ
  iterations : ℕ
deriving DecidableEq

/-- Local variables of the callable branch of `monte_carlo_average`.
`epsilon = none` models the initial `float('inf')`; `area = none` models the
variable being not yet assigned. -/
structure AvgSt where
  k : ℕ
  iterations : ℕ
  fSum : ℚ
  fSquaredSum : ℚ
  epsilon : Option ℚ
  area : Option ℚ
deriving DecidableEq

/-- Initial state of the callable branch of `monte_carlo_average`. -/
def avgInitSt : AvgSt := ⟨0, 0, 0, 0, none, none⟩

/-- One full iteration of the `while` body of `monte_carlo_average` in
callable mode: draw `randomNumber`, accumulate `fSum` / `fSquaredSum`,
recompute `fBar`, `fSquaredBar`, `epsilon` and `area`.  (Python draws
`randomNumber` just before the iteration-cap test; since the raising branch
discards it, folding the draw into the non-raising branch is observationally
identical.) -/
def avgStep (f : ℚ → ℚ) (lo hi : ℚ) (r : ℕ → ℚ) (sqrt : ℚ → ℚ) (st : AvgSt) : AvgSt :=
  let x := uniform lo hi (r st.k)
  let iterations := st.iterations + 1
  let fSum := st.fSum + f x
  let fSquaredSum := st.fSquaredSum + f x ^ 2
  let fBar := fSum / (iterations : ℚ)
  let fSquaredBar := fSquaredSum / (iterations : ℚ)
  ⟨st.k + 1, iterations, fSum, fSquaredSum,
   some ((hi - lo) * sqrt ((fSquaredBar - fBar ^ 2) / (iterations : ℚ))),
   some ((hi - lo) * fBar)⟩

/-- The `while epsilon >= acceptableError or iterations <= 1` loop of
`monte_carlo_average` in callable mode, with the iteration-cap `RuntimeError`
and the `return area` (a never-assigned `area` would be a `NameError`). -/
def avgLoop (f : ℚ → ℚ) (lo hi acc : ℚ) (maxIter : ℕ) (r : ℕ → ℚ) (sqrt : ℚ → ℚ) :
    ℕ → AvgSt → Except MCError AvgResult
  | 0, _ => .error .outOfFuel
  | fuel + 1, st =>
    if geInfB st.epsilon acc || decide (st.iterations ≤ 1) then
      if st.iterations = maxIter then .error .iterationLimit
      else avgLoop f lo hi acc maxIter r sqrt fuel (avgStep f lo hi r sqrt st)
    else
      match st.area with
      | some a => .ok ⟨a, st.epsilon, st.iterations⟩
      | none => .error .nameError

/-- `monte_carlo_average` from `monte_carlo_average.py`.  The table branch
computes `fBar = sum(function)/numElements` (a `ZeroDivisionError` on an
empty sequence), the mean of squares, `epsilon` and the area, and returns at
once; the callable branch runs the convergence loop; anything else raises
`TypeError`. -/
def monte_carlo_average (function : AvgIntegrand) (lowerLimit upperLimit acceptableError : ℚ)
    (maximumIterations : ℕ) (r : ℕ → ℚ) (sqrt : ℚ → ℚ) (fuel : ℕ) : Except MCError AvgResult :=
  match function with
  | .table ys =>
    if ys.length = 0 then .error .zeroDivision
    else
      let numElements : ℚ := (ys.length : ℚ)
      let fBar := (ys.foldl (· + ·) 0) / numElements
      let fSquaredBar := (ys.foldl (fun acc i => acc + i ^ 2) 0) / numElements
      .ok ⟨(upperLimit - lowerLimit) * fBar,
           some ((upperLimit - lowerLimit) * sqrt ((fSquaredBar - fBar ^ 2) / numElements)),
           0⟩
  | .fn f => avgLoop f lowerLimit upperLimit acceptableError maximumIterations r sqrt fuel avgInitSt
  | .other => .error .typeError

/-- Local variables of the table branch of `monte_carlo_hit_or_miss`.
`frac` is the Python local holding the running hit fraction (`hits /
len(randomY)`); `none` models it (and `area`) being not yet assigned. -/
structure TableSt where
  k : ℕ
  randomY : List ℚ
  hits : ℕ
  frac : Option ℚ
  area : Option ℚ
deriving DecidableEq

/-- One inner-loop pass (point index `i` fixed by `yi`, sample index `j`) of
the table branch: append a fresh `random.uniform(0, maxY)` to `randomY`, then
test `randomY[j] <= function[1][i]` — note the index `j`, exactly as in the
source, not the freshly appended element — and only on a hit update `hits`,
the running fraction and `area` (`w` is `max(function[0]) - min(function[0])`,
a pure value the source recomputes at each hit). -/
def tableStep (maxY w : ℚ) (r : ℕ → ℚ) (yi : ℚ) (st : TableSt) (j : ℕ) : TableSt :=
  let yNew := uniform 0 maxY (r st.k)
  let randomY := st.randomY ++ [yNew]
  if randomY.getD j 0 ≤ yi then
    let hits := st.hits + 1
    let q : ℚ := (hits : ℚ) / (randomY.length : ℚ)
    ⟨st.k + 1, randomY, hits, some q, some (q * w * maxY)⟩
  else
    ⟨st.k + 1, randomY, st.hits, st.frac, st.area⟩

/-- The two nested `for` loops of the table branch of
`monte_carlo_hit_or_miss`. -/
def tableLoop (maxY w : ℚ) (r : ℕ → ℚ) (ns : ℕ) (row1 : List ℚ) (st : TableSt) : TableSt :=
  (List.range row1.length).foldl
    (fun st i => (List.range ns).foldl (tableStep maxY w r (row1.getD i 0)) st) st

/-- The table branch of `monte_carlo_hit_or_miss`: `maxY = max(function[1])`
(`ValueError` on an empty row, and likewise for `max/min(function[0])` in the
epsilon line), the nested sampling loops, then the final epsilon computed
from the last assigned fraction (`NameError` if it was never assigned) and
`return area`. -/
def homTable (row0 row1 : List ℚ) (ns : ℕ) (r : ℕ → ℚ) (sqrt : ℚ → ℚ) :
    Except MCError HomResult :=
  match row1, row0 with
  | [], _ => .error .valueError
  | _ :: _, [] => .error .valueError
  | y0 :: ys, x0 :: xs =>
    let maxY := List.foldl max y0 ys
    let w := List.foldl max x0 xs - List.foldl min x0 xs
    let st := tableLoop maxY w r ns (y0 :: ys) ⟨0, [], 0, none, none⟩
    match st.frac, st.area with
    | some q, some a =>
        .ok ⟨a,
             some ((2 / 3 : ℚ) * w * maxY * sqrt ((q * (1 - q)) / (st.randomY.length : ℚ))),
             st.hits, st.randomY.length, 0⟩
    | _, _ => .error .nameError

/-- Local variables of the callable branch of `monte_carlo_hit_or_miss`. -/
structure HomSt where
  k : ℕ
  iterations : ℕ
  maxY : ℚ
  hits : ℕ
  randomX : List ℚ
  randomY : List ℚ
  epsilon : Option ℚ
  area : Option ℚ
deriving DecidableEq

/-- Initial state of the callable branch of `monte_carlo_hit_or_miss`. -/
def homInitSt : HomSt := ⟨0, 0, 0, 0, [], [], none, none⟩

/-- One pass of the first warm-up loop: append `random.uniform(lowerLimit,
upperLimit)` to `randomX` and raise `maxY` if `function(randomX[x])` exceeds
it. -/
def homWarmXStep (f : ℚ → ℚ) (lo hi : ℚ) (r : ℕ → ℚ) (st : HomSt) (x : ℕ) : HomSt :=
  let randomX := st.randomX ++ [uniform lo hi (r st.k)]
  let maxY := if st.maxY < f (randomX.getD x 0) then f (randomX.getD x 0) else st.maxY
  ⟨st.k + 1, st.iterations, maxY, st.hits, randomX, st.randomY, st.epsilon, st.area⟩

/-- The first warm-up loop (`for x in range(numberSamples)`) of the callable
branch. -/
def homWarmX (f : ℚ → ℚ) (lo hi : ℚ) (r : ℕ → ℚ) (ns : ℕ) (st : HomSt) : HomSt :=
  (List.range ns).foldl (homWarmXStep f lo hi r) st

/-- One pass of the second warm-up loop: append `random.uniform(0, maxY)` to
`randomY` and count a hit when `randomY[x] <= function(randomX[x])`. -/
def homWarmYStep (f : ℚ → ℚ) (r : ℕ → ℚ) (st : HomSt) (x : ℕ) : HomSt :=
  let randomY := st.randomY ++ [uniform 0 st.maxY (r st.k)]
  let hits := if randomY.getD x 0 ≤ f (st.randomX.getD x 0) then st.hits + 1 else st.hits
  ⟨st.k + 1, st.iterations, st.maxY, hits, st.randomX, randomY, st.epsilon, st.area⟩

/-- The second warm-up loop of the callable branch. -/
def homWarmY (f : ℚ → ℚ) (r : ℕ → ℚ) (ns : ℕ) (st : HomSt) : HomSt :=
  (List.range ns).foldl (homWarmYStep f r) st

/-- One full iteration of the `while epsilon >= acceptableError` body of the
callable branch, in source order: increment `iterations`, compute the hit
fraction `hits/len(randomX)`, `epsilon` and `area` from the samples cumulated
so far, and only then draw the new x (updating `maxY` when
`function(randomX[-1])` exceeds it) and the new y in `[0, maxY]` (counting a
hit when `randomY[-1] <= function(randomX[-1])`). -/
def homIterStep (f : ℚ → ℚ) (lo hi : ℚ) (r : ℕ → ℚ) (sqrt : ℚ → ℚ) (st : HomSt) : HomSt :=
  let q : ℚ := (st.hits : ℚ) / (st.randomX.length : ℚ)
  let eps := (2 / 3 : ℚ) * (hi - lo) * st.maxY * sqrt ((q * (1 - q)) / (st.randomX.length : ℚ))
  let a := q * (hi - lo) * st.maxY
  let randomX := st.randomX ++ [uniform lo hi (r st.k)]
  let maxY := if st.maxY < f (randomX.getLastD 0) then f (randomX.getLastD 0) else st.maxY
  let randomY := st.randomY ++ [uniform 0 maxY (r (st.k + 1))]
  let hits := if randomY.getLastD 0 ≤ f (randomX.getLastD 0) then st.hits + 1 else st.hits
  ⟨st.k + 2, st.iterations + 1, maxY, hits, randomX, randomY, some eps, some a⟩

/-- The convergence loop of the callable branch of `monte_carlo_hit_or_miss`:
iteration-cap `RuntimeError` first, then the body (`hits/len(randomX)` is a
`ZeroDivisionError` when no sample exists), and on exit `return area`. -/
def homLoop (f : ℚ → ℚ) (lo hi acc : ℚ) (maxIter : ℕ) (r : ℕ → ℚ) (sqrt : ℚ → ℚ) :
    ℕ → HomSt → Except MCError HomResult
  | 0, _ => .error .outOfFuel
  | fuel + 1, st =>
    if geInfB st.epsilon acc then
      if st.iterations = maxIter then .error .iterationLimit
      else if st.randomX.length = 0 then .error .zeroDivision
      else homLoop f lo hi acc maxIter r sqrt fuel (homIterStep f lo hi r sqrt st)
    else
      match st.area with
      | some a => .ok ⟨a, st.epsilon, st.hits, st.randomX.length, st.iterations⟩
      | none => .error .nameError

/-- The callable branch of `monte_carlo_hit_or_miss`: both warm-up loops then
the convergence loop. -/
def homCallable (f : ℚ → ℚ) (lo hi acc : ℚ) (maxIter ns : ℕ) (r : ℕ → ℚ) (sqrt : ℚ → ℚ)
    (fuel : ℕ) : Except MCError HomResult :=
  homLoop f lo hi acc maxIter r sqrt fuel (homWarmY f r ns (homWarmX f lo hi r ns homInitSt))

/-- `monte_carlo_hit_or_miss` from `monte_carlo_hit_or_miss.py`: dispatch on
the dynamic type of `function`, `TypeError` otherwise. -/
def monte_carlo_hit_or_miss (function : HomIntegrand) (lowerLimit upperLimit acceptableError : ℚ)
    (maximumIterations numberSamples : ℕ) (r : ℕ → ℚ) (sqrt : ℚ → ℚ) (fuel : ℕ) :
    Except MCError HomResult :=
  match function with
  | .table row0 row1 => homTable row0 row1 numberSamples r sqrt
  | .fn f =>
      homCallable f lowerLimit upperLimit acceptableError maximumIterations numberSamples r sqrt fuel
  | .other => .error .typeError

/-! ## Specification-side comparison definitions

`tableSpecStep` / `tableSpecRun` and `homSpecStep` / `homSpecLoop` /
`homSpecRun` transcribe what the specification *says* the code does (claims
C5 and C7), to be compared with the embeddings above that transcribe the
code.  `tableStaleTest` and its companions are closed forms, derived here,
of what the code's table loop actually computes; they are used to state the
amended claims. -/

/-- Follows the specification's words for one table-mode sample (claim C5):
the *freshly drawn* sample is the one tested against the point's y-value, and
the running fraction and area are recomputed after *every* sample. -/
def tableSpecStep (maxY w : ℚ) (r : ℕ → ℚ) (yi : ℚ) (st : TableSt) (_j : ℕ) : TableSt :=
  let yNew := uniform 0 maxY (r st.k)
  let randomY := st.randomY ++ [yNew]
  let hits := if yNew ≤ yi then st.hits + 1 else st.hits
  let q : ℚ := (hits : ℚ) / (randomY.length : ℚ)
  ⟨st.k + 1, randomY, hits, some q, some (q * w * maxY)⟩

/-- Follows the specification's words for hit-or-miss table mode (claim C5):
the same wrapper as `homTable` but with the per-sample behaviour of
`tableSpecStep`, so the final epsilon uses the hit fraction over all
samples. -/
def tableSpecRun (row0 row1 : List ℚ) (ns : ℕ) (r : ℕ → ℚ) (sqrt : ℚ → ℚ) :
    Except MCError HomResult :=
  match row1, row0 with
  | [], _ => .error .valueError
  | _ :: _, [] => .error .valueError
  | y0 :: ys, x0 :: xs =>
    let maxY := List.foldl max y0 ys
    let w := List.foldl max x0 xs - List.foldl min x0 xs
    let st := (List.range (y0 :: ys).length).foldl
      (fun st i => (List.range ns).foldl (tableSpecStep maxY w r ((y0 :: ys).getD i 0)) st)
      ⟨0, [], 0, none, none⟩
    match st.frac, st.area with
    | some q, some a =>
        .ok ⟨a,
             some ((2 / 3 : ℚ) * w * maxY * sqrt ((q * (1 - q)) / (st.randomY.length : ℚ))),
             st.hits, st.randomY.length, 0⟩
    | _, _ => .error .nameError

/-- Follows the specification's words for one refinement iteration of the
callable branch (claim C7): *first* draw the new x (updating `maxY`) and the
new y (counting a hit), *then* recompute the fraction, epsilon and area from
the cumulative statistics, so the final draw is reflected in the result. -/
def homSpecStep (f : ℚ → ℚ) (lo hi : ℚ) (r : ℕ → ℚ) (sqrt : ℚ → ℚ) (st : HomSt) : HomSt :=
  let randomX := st.randomX ++ [uniform lo hi (r st.k)]
  let maxY := if st.maxY < f (randomX.getLastD 0) then f (randomX.getLastD 0) else st.maxY
  let randomY := st.randomY ++ [uniform 0 maxY (r (st.k + 1))]
  let hits := if randomY.getLastD 0 ≤ f (randomX.getLastD 0) then st.hits + 1 else st.hits
  let q : ℚ := (hits : ℚ) / (randomX.length : ℚ)
  let eps := (2 / 3 : ℚ) * (hi - lo) * maxY * sqrt ((q * (1 - q)) / (randomX.length : ℚ))
  let a := q * (hi - lo) * maxY
  ⟨st.k + 2, st.iterations + 1, maxY, hits, randomX, randomY, some eps, some a⟩

/-- The specification's refinement loop (claim C7): as `homLoop` but with the
draw-first iteration body `homSpecStep`. -/
def homSpecLoop (f : ℚ → ℚ) (lo hi acc : ℚ) (maxIter : ℕ) (r : ℕ → ℚ) (sqrt : ℚ → ℚ) :
    ℕ → HomSt → Except MCError HomResult
  | 0, _ => .error .outOfFuel
  | fuel + 1, st =>
    if geInfB st.epsilon acc then
      if st.iterations = maxIter then .error .iterationLimit
      else homSpecLoop f lo hi acc maxIter r sqrt fuel (homSpecStep f lo hi r sqrt st)
    else
      match st.area with
      | some a => .ok ⟨a, st.epsilon, st.hits, st.randomX.length, st.iterations⟩
      | none => .error .nameError

/-- The specification's callable-mode estimator (claim C7): warm-ups as in
the code, then the draw-first refinement loop. -/
def homSpecRun (f : ℚ → ℚ) (lo hi acc : ℚ) (maxIter ns : ℕ) (r : ℕ → ℚ) (sqrt : ℚ → ℚ)
    (fuel : ℕ) : Except MCError HomResult :=
  homSpecLoop f lo hi acc maxIter r sqrt fuel (homWarmY f r ns (homWarmX f lo hi r ns homInitSt))

/-- The sample the code's table branch actually tests at global sample index
`g` (point `g / ns`, inner index `j = g % ns`): element `j` of `randomY`,
which is the `j`-th sample drawn overall — the fresh draw only while
processing the first point. -/
def tableStaleTest (maxY : ℚ) (r : ℕ → ℚ) (ns : ℕ) (row1 : List ℚ) (g : ℕ) : Bool :=
  decide (uniform 0 maxY (r (g % ns)) ≤ row1.getD (g / ns) 0)

/-- Number of hits the code's table loop has counted after the first `n`
samples. -/
def tableStaleHits (maxY : ℚ) (r : ℕ → ℚ) (ns : ℕ) (row1 : List ℚ) (n : ℕ) : ℕ :=
  ((List.range n).filter (tableStaleTest maxY r ns row1)).length

/-- Index of the last hit among the first `n` samples of the code's table
loop, if any. -/
def tableLastHit (maxY : ℚ) (r : ℕ → ℚ) (ns : ℕ) (row1 : List ℚ) (n : ℕ) : Option ℕ :=
  ((List.range n).filter (tableStaleTest maxY r ns row1)).getLast?

/-- The hit fraction the code's table loop last assigned within the first `n`
samples: at the last hit `g` it was `hits so far / (g + 1)`; `none` when no
hit has occurred. -/
def tableFracAt (maxY : ℚ) (r : ℕ → ℚ) (ns : ℕ) (row1 : List ℚ) (n : ℕ) : Option ℚ :=
  match tableLastHit maxY r ns row1 n with
  | none => none
  | some g => some ((tableStaleHits maxY r ns row1 (g + 1) : ℚ) / ((g + 1 : ℕ) : ℚ))

/-- The list `randomY` of the code's table loop after `n` samples. -/
def drawsList (maxY : ℚ) (r : ℕ → ℚ) (n : ℕ) : List ℚ :=
  (List.range n).map (fun g => uniform 0 maxY (r g))

/-- Relation between the table-loop state and the closed forms above, after
`n` samples have been processed. -/
def TableInv (maxY w : ℚ) (r : ℕ → ℚ) (ns : ℕ) (row1 : List ℚ) (n : ℕ) (st : TableSt) : Prop :=
  st.k = n ∧ st.randomY = drawsList maxY r n ∧
  st.hits = tableStaleHits maxY r ns row1 n ∧
  st.frac = tableFracAt maxY r ns row1 n ∧
  st.area = Option.map (fun q => q * w * maxY) (tableFracAt maxY r ns row1 n)

/-- The area value the callable-branch loop computes from a state: the hit
fraction so far times `(upperLimit - lowerLimit) * maxY`. -/
def homAreaBasis (lo hi : ℚ) (st : HomSt) : ℚ :=
  ((st.hits : ℚ) / (st.randomX.length : ℚ)) * (hi - lo) * st.maxY

deriving instance DecidableEq for Except

/-! ## Generic helper lemmas -/

lemma foldl_id {α β : Type} (l : List β) (st : α) : l.foldl (fun s _ => s) st = st := by
  induction l generalizing st with
  | nil => rfl
  | cons b l ih => simp only [List.foldl_cons]; exact ih st

lemma foldl_inv {α β : Type} (g : α → β → α) (P : α → Prop) (l : List β) (st : α)
    (h0 : P st) (hstep : ∀ a b, P a → P (g a b)) : P (l.foldl g st) := by
  induction l generalizing st with
  | nil => exact h0
  | cons b l ih => exact ih _ (hstep _ _ h0)

lemma foldl_measure {α β : Type} (g : α → β → α) (μ : α → ℕ) (l : List β) (st : α)
    (hstep : ∀ a b, μ (g a b) = μ a + 1) : μ (l.foldl g st) = μ st + l.length := by
  induction l generalizing st with
  | nil => simp
  | cons b l ih => rw [List.foldl_cons, ih, hstep, List.length_cons]; omega

lemma tableLoop_ns_zero (maxY w : ℚ) (r : ℕ → ℚ) (row1 : List ℚ) (st : TableSt) :
    tableLoop maxY w r 0 row1 st = st := by
  unfold tableLoop
  simp only [List.range_zero, List.foldl_nil]
  exact foldl_id _ st

/-! ## Claim theorems -/

/-- C4: an integrand that is neither a Python function nor a list/tuple makes
both estimators raise `TypeError`, for every choice of the remaining
arguments and of the random stream (hence before any sampling happens). -/
theorem non_integrand_type_rejected :
    ∀ (lo hi acc : ℚ) (maxIter ns : ℕ) (r : ℕ → ℚ) (sqrt : ℚ → ℚ) (fuel : ℕ),
      monte_carlo_average .other lo hi acc maxIter r sqrt fuel = .error .typeError ∧
      monte_carlo_hit_or_miss .other lo hi acc maxIter ns r sqrt fuel = .error .typeError :=
  fun _ _ _ _ _ _ _ _ => ⟨rfl, rfl⟩

/-- C10: in table mode, `monte_carlo_hit_or_miss` is independent of
`lowerLimit`, `upperLimit`, `acceptableError` and `maximumIterations` (and of
the loop fuel): with the same table, the same `numberSamples` and the same
random stream, runs with arbitrarily different values of those parameters
return identical results. -/
theorem table_mode_ignores_bounds_params :
    ∀ (row0 row1 : List ℚ) (ns : ℕ) (r : ℕ → ℚ) (sqrt : ℚ → ℚ)
      (lo hi acc : ℚ) (maxIter : ℕ) (lo' hi' acc' : ℚ) (maxIter' : ℕ) (fuel fuel' : ℕ),
      monte_carlo_hit_or_miss (.table row0 row1) lo hi acc maxIter ns r sqrt fuel =
        monte_carlo_hit_or_miss (.table row0 row1) lo' hi' acc' maxIter' ns r sqrt fuel' :=
  fun _ _ _ _ _ _ _ _ _ _ _ _ _ _ _ => rfl

/-- C9: in table mode with `numberSamples = 0` and a nonempty table, the
locals holding the running hit fraction and area are never assigned, so the
final epsilon computation reads an unassigned variable and the call fails
with a `NameError` instead of returning an area. -/
theorem table_zero_samples_name_error :
    ∀ (x0 : ℚ) (xs : List ℚ) (y0 : ℚ) (ys : List ℚ) (lo hi acc : ℚ)
      (maxIter : ℕ) (r : ℕ → ℚ) (sqrt : ℚ → ℚ) (fuel : ℕ),
      monte_carlo_hit_or_miss (.table (x0 :: xs) (y0 :: ys)) lo hi acc maxIter 0 r sqrt fuel =
        .error .nameError := by
  intro x0 xs y0 ys lo hi acc maxIter r sqrt fuel
  show homTable (x0 :: xs) (y0 :: ys) 0 r sqrt = .error .nameError
  simp only [homTable, tableLoop_ns_zero]

/-! ## Convergence-loop exit lemmas (claim C1) -/

lemma avgLoop_ok_exit (f : ℚ → ℚ) (lo hi acc : ℚ) (maxIter : ℕ) (r : ℕ → ℚ) (sqrt : ℚ → ℚ) :
    ∀ (fuel : ℕ) (st : AvgSt) (res : AvgResult),
      avgLoop f lo hi acc maxIter r sqrt fuel st = .ok res →
      2 ≤ res.iterations ∧ ∃ e, res.epsilon = some e ∧ e < acc := by
  intro fuel
  induction fuel with
  | zero => intro st res h; exact absurd h (by simp [avgLoop])
  | succ n ih =>
    intro st res h
    rw [avgLoop] at h
    by_cases hc : (geInfB st.epsilon acc || decide (st.iterations ≤ 1)) = true
    · rw [if_pos hc] at h
      by_cases hm : st.iterations = maxIter
      · rw [if_pos hm] at h; exact absurd h (by simp)
      · rw [if_neg hm] at h; exact ih _ _ h
    · rw [if_neg hc] at h
      have hc' := hc
      simp only [Bool.or_eq_true, decide_eq_true_eq, not_or] at hc'
      obtain ⟨hge, hit⟩ := hc'
      cases harea : st.area with
      | none => rw [harea] at h; exact absurd h (by simp)
      | some a =>
        rw [harea] at h
        have hres : res = ⟨a, st.epsilon, st.iterations⟩ := by
          cases h; rfl
        subst hres
        refine ⟨show 2 ≤ st.iterations by omega, ?_⟩
        cases heps : st.epsilon with
        | none => rw [heps] at hge; simp [geInfB] at hge
        | some e =>
          refine ⟨e, rfl, ?_⟩
          rw [heps] at hge
          simp only [geInfB, Bool.not_eq_true, decide_eq_false_iff_not, not_le] at hge
          exact hge

lemma homLoop_ok_exit (f : ℚ → ℚ) (lo hi acc : ℚ) (maxIter : ℕ) (r : ℕ → ℚ) (sqrt : ℚ → ℚ) :
    ∀ (fuel : ℕ) (st : HomSt) (res : HomResult),
      homLoop f lo hi acc maxIter r sqrt fuel st = .ok res →
      ∃ e, res.epsilon = some e ∧ e < acc := by
  intro fuel
  induction fuel with
  | zero => intro st res h; exact absurd h (by simp [homLoop])
  | succ n ih =>
    intro st res h
    rw [homLoop] at h
    by_cases hc : geInfB st.epsilon acc = true
    · rw [if_pos hc] at h
      by_cases hm : st.iterations = maxIter
      · rw [if_pos hm] at h; exact absurd h (by simp)
      · rw [if_neg hm] at h
        by_cases hz : st.randomX.length = 0
        · rw [if_pos hz] at h; exact absurd h (by simp)
        · rw [if_neg hz] at h; exact ih _ _ h
    · rw [if_neg hc] at h
      cases harea : st.area with
      | none => rw [harea] at h; exact absurd h (by simp)
      | some a =>
        rw [harea] at h
        have hres : res = ⟨a, st.epsilon, st.hits, st.randomX.length, st.iterations⟩ := by
          cases h; rfl
        subst hres
        cases heps : st.epsilon with
        | none => rw [heps] at hc; simp [geInfB] at hc
        | some e =>
          refine ⟨e, rfl, ?_⟩
          rw [heps] at hc
          simp only [geInfB, Bool.not_eq_true, decide_eq_false_iff_not, not_le] at hc
          exact hc

/-- C1: whenever a callable-mode call of either estimator returns normally,
the error estimate computed in the final loop iteration is strictly below
`acceptableError`; and `monte_carlo_average` has run at least 2 iterations
before returning. -/
theorem callable_return_implies_converged :
    (∀ (f : ℚ → ℚ) (lo hi acc : ℚ) (maxIter : ℕ) (r : ℕ → ℚ) (sqrt : ℚ → ℚ) (fuel : ℕ)
        (res : AvgResult),
        monte_carlo_average (.fn f) lo hi acc maxIter r sqrt fuel = .ok res →
        2 ≤ res.iterations ∧ ∃ e, res.epsilon = some e ∧ e < acc) ∧
    (∀ (f : ℚ → ℚ) (lo hi acc : ℚ) (maxIter ns : ℕ) (r : ℕ → ℚ) (sqrt : ℚ → ℚ) (fuel : ℕ)
        (res : HomResult),
        monte_carlo_hit_or_miss (.fn f) lo hi acc maxIter ns r sqrt fuel = .ok res →
        ∃ e, res.epsilon = some e ∧ e < acc) := by
  constructor
  · intro f lo hi acc maxIter r sqrt fuel res h
    exact avgLoop_ok_exit f lo hi acc maxIter r sqrt fuel avgInitSt res h
  · intro f lo hi acc maxIter ns r sqrt fuel res h
    exact homLoop_ok_exit f lo hi acc maxIter r sqrt fuel _ res h

/-- Witness for C1: a constant integrand converging after 2 iterations in
average mode and 1 iteration in hit-or-miss mode. -/
theorem callable_return_implies_converged_wit :
    (monte_carlo_average (.fn (fun _ => 1)) 0 1 1 100000 (fun _ => 1 / 2) (fun q => q) 4 =
        .ok ⟨1, some 0, 2⟩ ∧
      2 ≤ (⟨1, some 0, 2⟩ : AvgResult).iterations ∧
      ∃ e, (⟨1, some 0, 2⟩ : AvgResult).epsilon = some e ∧ e < 1) ∧
    (monte_carlo_hit_or_miss (.fn (fun _ => 1)) 0 1 1 100000 1 (fun _ => 1 / 2) (fun q => q) 3 =
        .ok ⟨1, some 0, 2, 2, 1⟩ ∧
      ∃ e, (⟨1, some 0, 2, 2, 1⟩ : HomResult).epsilon = some e ∧ e < 1) := by
  have h1 : monte_carlo_average (.fn (fun _ => 1)) 0 1 1 100000 (fun _ => 1 / 2) (fun q => q) 4 =
      .ok ⟨1, some 0, 2⟩ := by
    norm_num [monte_carlo_average, avgLoop, avgStep, avgInitSt, uniform, geInfB]
  have h2 : monte_carlo_hit_or_miss (.fn (fun _ => 1)) 0 1 1 100000 1 (fun _ => 1 / 2)
      (fun q => q) 3 = .ok ⟨1, some 0, 2, 2, 1⟩ := by
    norm_num [monte_carlo_hit_or_miss, homCallable, homLoop, homIterStep, homWarmX, homWarmY,
      homWarmXStep, homWarmYStep, homInitSt, uniform, geInfB, List.range_succ,
      List.getD, List.getLastD]
  exact ⟨⟨h1, callable_return_implies_converged.1 _ _ _ _ _ _ _ _ _ h1⟩,
         ⟨h2, callable_return_implies_converged.2 _ _ _ _ _ _ _ _ _ _ h2⟩⟩

/-! ## Iteration-cap lemmas (claim C2) -/

lemma avgStep_iterations (f : ℚ → ℚ) (lo hi : ℚ) (r : ℕ → ℚ) (sqrt : ℚ → ℚ) (st : AvgSt) :
    (avgStep f lo hi r sqrt st).iterations = st.iterations + 1 := rfl

lemma homWarm_iterations (f : ℚ → ℚ) (lo hi : ℚ) (r : ℕ → ℚ) (ns : ℕ) :
    (homWarmY f r ns (homWarmX f lo hi r ns homInitSt)).iterations = 0 := by
  have hx : (homWarmX f lo hi r ns homInitSt).iterations = 0 :=
    foldl_inv (homWarmXStep f lo hi r) (fun s : HomSt => s.iterations = 0) (List.range ns)
      homInitSt rfl (fun a b h => h)
  exact foldl_inv (homWarmYStep f r) (fun s : HomSt => s.iterations = 0) (List.range ns)
    (homWarmX f lo hi r ns homInitSt) hx (fun a b h => h)

lemma homWarm_epsilon (f : ℚ → ℚ) (lo hi : ℚ) (r : ℕ → ℚ) (ns : ℕ) :
    (homWarmY f r ns (homWarmX f lo hi r ns homInitSt)).epsilon = none := by
  have hx : (homWarmX f lo hi r ns homInitSt).epsilon = none :=
    foldl_inv (homWarmXStep f lo hi r) (fun s : HomSt => s.epsilon = none) (List.range ns)
      homInitSt rfl (fun a b h => h)
  exact foldl_inv (homWarmYStep f r) (fun s : HomSt => s.epsilon = none) (List.range ns)
    (homWarmX f lo hi r ns homInitSt) hx (fun a b h => h)

lemma homWarm_randomX_length (f : ℚ → ℚ) (lo hi : ℚ) (r : ℕ → ℚ) (ns : ℕ) :
    (homWarmY f r ns (homWarmX f lo hi r ns homInitSt)).randomX.length = ns := by
  have hx : (homWarmX f lo hi r ns homInitSt).randomX.length = ns := by
    have := foldl_measure (homWarmXStep f lo hi r) (fun s : HomSt => s.randomX.length)
      (List.range ns) homInitSt (fun a b => by simp [homWarmXStep])
    simpa [homInitSt] using this
  have hy : (homWarmY f r ns (homWarmX f lo hi r ns homInitSt)).randomX =
      (homWarmX f lo hi r ns homInitSt).randomX :=
    foldl_inv (homWarmYStep f r)
      (fun s : HomSt => s.randomX = (homWarmX f lo hi r ns homInitSt).randomX) (List.range ns)
      (homWarmX f lo hi r ns homInitSt) rfl (fun a b h => h)
  rw [hy, hx]

lemma homIterStep_iterations (f : ℚ → ℚ) (lo hi : ℚ) (r : ℕ → ℚ) (sqrt : ℚ → ℚ) (st : HomSt) :
    (homIterStep f lo hi r sqrt st).iterations = st.iterations + 1 := rfl

lemma homIterStep_randomX_length (f : ℚ → ℚ) (lo hi : ℚ) (r : ℕ → ℚ) (sqrt : ℚ → ℚ)
    (st : HomSt) :
    (homIterStep f lo hi r sqrt st).randomX.length = st.randomX.length + 1 := by
  simp [homIterStep]

lemma avgLoop_no_convergence (f : ℚ → ℚ) (lo hi acc : ℚ) (maxIter : ℕ) (r : ℕ → ℚ)
    (sqrt : ℚ → ℚ) :
    ∀ (fuel : ℕ) (st : AvgSt),
      (∀ i : ℕ, geInfB (((avgStep f lo hi r sqrt)^[i] st).epsilon) acc = true) →
      st.iterations ≤ maxIter → maxIter < fuel + st.iterations →
      avgLoop f lo hi acc maxIter r sqrt fuel st = .error .iterationLimit := by
  intro fuel
  induction fuel with
  | zero => intro st _ h1 h2; omega
  | succ n ih =>
    intro st hall hle hfuel
    have h0 := hall 0
    rw [Function.iterate_zero_apply] at h0
    rw [avgLoop, if_pos (by rw [h0]; rfl)]
    by_cases hm : st.iterations = maxIter
    · rw [if_pos hm]
    · rw [if_neg hm]
      refine ih _ (fun i => ?_) ?_ ?_
      · have := hall (i + 1)
        rwa [Function.iterate_succ_apply] at this
      · rw [avgStep_iterations]; omega
      · rw [avgStep_iterations]; omega

lemma homLoop_no_convergence (f : ℚ → ℚ) (lo hi acc : ℚ) (maxIter : ℕ) (r : ℕ → ℚ)
    (sqrt : ℚ → ℚ) :
    ∀ (fuel : ℕ) (st : HomSt),
      (∀ i : ℕ, geInfB (((homIterStep f lo hi r sqrt)^[i] st).epsilon) acc = true) →
      st.iterations ≤ maxIter → maxIter < fuel + st.iterations →
      1 ≤ st.randomX.length →
      homLoop f lo hi acc maxIter r sqrt fuel st = .error .iterationLimit := by
  intro fuel
  induction fuel with
  | zero => intro st _ h1 h2 _; omega
  | succ n ih =>
    intro st hall hle hfuel hlen
    have h0 := hall 0
    rw [Function.iterate_zero_apply] at h0
    rw [homLoop, if_pos h0]
    by_cases hm : st.iterations = maxIter
    · rw [if_pos hm]
    · rw [if_neg hm, if_neg (by omega)]
      refine ih _ (fun i => ?_) ?_ ?_ ?_
      · have := hall (i + 1)
        rwa [Function.iterate_succ_apply] at this
      · rw [homIterStep_iterations]; omega
      · rw [homIterStep_iterations]; omega
      · rw [homIterStep_randomX_length]; omega

/-- C2: when the error estimate never drops below `acceptableError` (the
loop condition holds at every iteration), a callable-mode call of either
estimator reaches the configured maximum iteration count and raises the
iteration-limit `RuntimeError` — it returns no area.  (`maxIter < fuel`
grants the model loop enough fuel to reach the cap; the hit-or-miss
estimator needs at least one warm-up sample, otherwise it dies earlier with
a `ZeroDivisionError`.) -/
theorem nonconvergent_loop_iteration_cap :
    (∀ (f : ℚ → ℚ) (lo hi acc : ℚ) (maxIter : ℕ) (r : ℕ → ℚ) (sqrt : ℚ → ℚ) (fuel : ℕ),
      (∀ i : ℕ, geInfB (((avgStep f lo hi r sqrt)^[i] avgInitSt).epsilon) acc = true) →
      maxIter < fuel →
      monte_carlo_average (.fn f) lo hi acc maxIter r sqrt fuel = .error .iterationLimit) ∧
    (∀ (f : ℚ → ℚ) (lo hi acc : ℚ) (maxIter ns : ℕ) (r : ℕ → ℚ) (sqrt : ℚ → ℚ) (fuel : ℕ),
      (∀ i : ℕ, geInfB (((homIterStep f lo hi r sqrt)^[i]
          (homWarmY f r ns (homWarmX f lo hi r ns homInitSt))).epsilon) acc = true) →
      1 ≤ ns → maxIter < fuel →
      monte_carlo_hit_or_miss (.fn f) lo hi acc maxIter ns r sqrt fuel =
        .error .iterationLimit) := by
  constructor
  · intro f lo hi acc maxIter r sqrt fuel hall hfuel
    exact avgLoop_no_convergence f lo hi acc maxIter r sqrt fuel avgInitSt hall
      (by simp [avgInitSt]) (by simp [avgInitSt]; omega)
  · intro f lo hi acc maxIter ns r sqrt fuel hall hns hfuel
    refine homLoop_no_convergence f lo hi acc maxIter r sqrt fuel _ hall ?_ ?_ ?_
    · rw [homWarm_iterations]; omega
    · rw [homWarm_iterations]; omega
    · rw [homWarm_randomX_length]; omega

/-- Witness for C2: with `acceptableError = 0` (and a model square root that
returns 0, so the computed estimates are all 0 and never drop below the
threshold) and `maximumIterations = 10`, both callable-mode estimators raise
the iteration-limit error instead of returning an area. -/
theorem nonconvergent_loop_iteration_cap_wit :
    monte_carlo_average (.fn (fun _ => 1)) 0 1 0 10 (fun _ => 1 / 2) (fun _ => 0) 11 =
      .error .iterationLimit ∧
    monte_carlo_hit_or_miss (.fn (fun _ => 1)) 0 1 0 10 1 (fun _ => 1 / 2) (fun _ => 0) 11 =
      .error .iterationLimit := by
  constructor
  · refine nonconvergent_loop_iteration_cap.1 _ _ _ _ _ _ _ _ (fun i => ?_) (by omega)
    cases i with
    | zero => rfl
    | succ n =>
      rw [Function.iterate_succ_apply']
      norm_num [avgStep, geInfB]
  · refine nonconvergent_loop_iteration_cap.2 _ _ _ _ _ _ _ _ _ (fun i => ?_) (by omega) (by omega)
    cases i with
    | zero => rw [Function.iterate_zero_apply, homWarm_epsilon]; rfl
    | succ n =>
      rw [Function.iterate_succ_apply']
      norm_num [homIterStep, geInfB]

/-- C3: on a nonempty list/tuple of y-values, `monte_carlo_average` returns
`(upperLimit - lowerLimit) * mean(ys)` with the error estimate
`(upperLimit - lowerLimit) * sqrt((mean of squares - mean^2) / N)`, with zero
loop iterations; and the result is independent of the random stream and of
the loop fuel (no draws, immediate return). -/
theorem average_table_mode_closed_form :
    ∀ (ys : List ℚ) (lo hi acc : ℚ) (maxIter : ℕ) (r r' : ℕ → ℚ) (sqrt : ℚ → ℚ)
      (fuel fuel' : ℕ), ys ≠ [] →
      monte_carlo_average (.table ys) lo hi acc maxIter r sqrt fuel =
        .ok ⟨(hi - lo) * (ys.sum / (ys.length : ℚ)),
             some ((hi - lo) *
               sqrt (((ys.map (fun y => y ^ 2)).sum / (ys.length : ℚ) -
                 (ys.sum / (ys.length : ℚ)) ^ 2) / (ys.length : ℚ))),
             0⟩ ∧
      monte_carlo_average (.table ys) lo hi acc maxIter r sqrt fuel =
        monte_carlo_average (.table ys) lo hi acc maxIter r' sqrt fuel' := by
  intro ys lo hi acc maxIter r r' sqrt fuel fuel' hne
  have hlen : ¬ ys.length = 0 := by
    simpa [List.length_eq_zero] using hne
  refine ⟨?_, rfl⟩
  simp only [monte_carlo_average, if_neg hlen]
  rw [List.sum_eq_foldl, List.sum_eq_foldl, List.foldl_map]

/-- Witness for C3: the deterministic sequence `[0,1,2,3,4]` over bounds
`[0,4]` yields exactly `8` (with printed error `4 * sqrt(2/5)`, here `8/5`
under the identity model square root), independent of stream and fuel. -/
theorem average_table_mode_closed_form_wit :
    monte_carlo_average (.table [0, 1, 2, 3, 4]) 0 4 (1 / 100) 100000 (fun _ => 0)
      (fun q => q) 0 = .ok ⟨8, some (8 / 5), 0⟩ := by
  have h := (average_table_mode_closed_form [0, 1, 2, 3, 4] 0 4 (1 / 100) 100000
    (fun _ => 0) (fun _ => 0) (fun q => q) 0 0 (by simp)).1
  rw [h]
  norm_num

/-! ## Characterization of the table branch of `monte_carlo_hit_or_miss`
(claims C5, C6, and their amendments) -/

lemma drawsList_succ (maxY : ℚ) (r : ℕ → ℚ) (n : ℕ) :
    drawsList maxY r (n + 1) = drawsList maxY r n ++ [uniform 0 maxY (r n)] := by
  simp [drawsList, List.range_succ]

lemma drawsList_length (maxY : ℚ) (r : ℕ → ℚ) (n : ℕ) :
    (drawsList maxY r n).length = n := by
  simp [drawsList]

lemma drawsList_getD (maxY : ℚ) (r : ℕ → ℚ) (n m : ℕ) (h : m < n) :
    (drawsList maxY r n).getD m 0 = uniform 0 maxY (r m) := by
  simp [drawsList, List.getD_eq_getElem?_getD, List.getElem?_map, List.getElem?_range h]

lemma tableStaleHits_succ (maxY : ℚ) (r : ℕ → ℚ) (ns : ℕ) (row1 : List ℚ) (n : ℕ) :
    tableStaleHits maxY r ns row1 (n + 1) =
      tableStaleHits maxY r ns row1 n +
        (if tableStaleTest maxY r ns row1 n then 1 else 0) := by
  unfold tableStaleHits
  rw [List.range_succ, List.filter_append]
  by_cases h : tableStaleTest maxY r ns row1 n <;> simp [h]

lemma tableLastHit_succ (maxY : ℚ) (r : ℕ → ℚ) (ns : ℕ) (row1 : List ℚ) (n : ℕ) :
    tableLastHit maxY r ns row1 (n + 1) =
      if tableStaleTest maxY r ns row1 n then some n
      else tableLastHit maxY r ns row1 n := by
  unfold tableLastHit
  rw [List.range_succ, List.filter_append]
  by_cases h : tableStaleTest maxY r ns row1 n
  · simp [h, List.getLast?_concat]
  · simp [h]

lemma tableInv_init (maxY w : ℚ) (r : ℕ → ℚ) (ns : ℕ) (row1 : List ℚ) :
    TableInv maxY w r ns row1 0 ⟨0, [], 0, none, none⟩ := by
  refine ⟨rfl, rfl, rfl, ?_, ?_⟩ <;>
    simp [tableFracAt, tableLastHit, tableStaleHits, drawsList]

lemma tableStep_inv (maxY w : ℚ) (r : ℕ → ℚ) (ns : ℕ) (row1 : List ℚ) (i m : ℕ)
    (hm : m < ns) (st : TableSt) (h : TableInv maxY w r ns row1 (i * ns + m) st) :
    TableInv maxY w r ns row1 (i * ns + m + 1) (tableStep maxY w r (row1.getD i 0) st m) := by
  obtain ⟨hk, hry, hh, hf, ha⟩ := h
  have hns : 0 < ns := Nat.lt_of_le_of_lt (Nat.zero_le m) hm
  have hmod : (i * ns + m) % ns = m := by
    rw [Nat.mul_comm, Nat.mul_add_mod]
    exact Nat.mod_eq_of_lt hm
  have hdiv : (i * ns + m) / ns = i := by
    rw [Nat.add_comm, Nat.add_mul_div_right m i hns, Nat.div_eq_of_lt hm, Nat.zero_add]
  have hnew : st.randomY ++ [uniform 0 maxY (r st.k)] = drawsList maxY r (i * ns + m + 1) := by
    rw [hry, hk, drawsList_succ]
  have hlen2 : (st.randomY ++ [uniform 0 maxY (r st.k)]).length = i * ns + m + 1 := by
    rw [hnew, drawsList_length]
  have hgd : (st.randomY ++ [uniform 0 maxY (r st.k)]).getD m 0 = uniform 0 maxY (r m) := by
    rw [hnew]
    exact drawsList_getD maxY r _ m (by omega)
  have htest : tableStaleTest maxY r ns row1 (i * ns + m) =
      decide ((st.randomY ++ [uniform 0 maxY (r st.k)]).getD m 0 ≤ row1.getD i 0) := by
    rw [hgd]
    unfold tableStaleTest
    rw [hmod, hdiv]
  unfold tableStep
  by_cases hc : (st.randomY ++ [uniform 0 maxY (r st.k)]).getD m 0 ≤ row1.getD i 0
  · have ht : tableStaleTest maxY r ns row1 (i * ns + m) = true := by
      rw [htest]
      exact decide_eq_true hc
    have hhits : st.hits + 1 = tableStaleHits maxY r ns row1 (i * ns + m + 1) := by
      rw [tableStaleHits_succ, ht, hh]
      simp
    have hfrac : tableFracAt maxY r ns row1 (i * ns + m + 1) =
        some ((tableStaleHits maxY r ns row1 (i * ns + m + 1) : ℚ) /
          ((i * ns + m + 1 : ℕ) : ℚ)) := by
      unfold tableFracAt
      rw [tableLastHit_succ, ht]
      simp
    rw [if_pos hc]
    refine ⟨by rw [hk], hnew, hhits, ?_, ?_⟩
    · rw [hfrac, hlen2, hhits]
    · rw [hfrac, hlen2, hhits]
      simp
  · have ht : tableStaleTest maxY r ns row1 (i * ns + m) = false := by
      rw [htest]
      exact decide_eq_false hc
    have hlast : tableLastHit maxY r ns row1 (i * ns + m + 1) =
        tableLastHit maxY r ns row1 (i * ns + m) := by
      rw [tableLastHit_succ, ht]
      simp
    have hfrac : tableFracAt maxY r ns row1 (i * ns + m + 1) =
        tableFracAt maxY r ns row1 (i * ns + m) := by
      unfold tableFracAt
      rw [hlast]
    rw [if_neg hc]
    refine ⟨by rw [hk], hnew, ?_, ?_, ?_⟩
    · rw [hh, tableStaleHits_succ, ht]
      simp
    · rw [hfrac]
      exact hf
    · rw [hfrac]
      exact ha

lemma tableInner_inv (maxY w : ℚ) (r : ℕ → ℚ) (ns : ℕ) (row1 : List ℚ) (i : ℕ) :
    ∀ (m : ℕ), m ≤ ns → ∀ (st : TableSt), TableInv maxY w r ns row1 (i * ns) st →
      TableInv maxY w r ns row1 (i * ns + m)
        ((List.range m).foldl (tableStep maxY w r (row1.getD i 0)) st) := by
  intro m
  induction m with
  | zero => intro _ st h; simpa using h
  | succ m ih =>
    intro hm st h
    rw [List.range_succ, List.foldl_append, List.foldl_cons, List.foldl_nil]
    exact tableStep_inv maxY w r ns row1 i m (by omega) _ (ih (by omega) st h)

lemma tableLoop_inv (maxY w : ℚ) (r : ℕ → ℚ) (ns : ℕ) (row1 : List ℚ) :
    ∀ (M : ℕ), ∀ (st : TableSt), TableInv maxY w r ns row1 0 st →
      TableInv maxY w r ns row1 (M * ns)
        ((List.range M).foldl
          (fun st i => (List.range ns).foldl (tableStep maxY w r (row1.getD i 0)) st) st) := by
  intro M
  induction M with
  | zero => intro st h; simpa using h
  | succ M ih =>
    intro st h
    rw [List.range_succ, List.foldl_append, List.foldl_cons, List.foldl_nil]
    have h2 := tableInner_inv maxY w r ns row1 M ns le_rfl _ (ih st h)
    rwa [show M * ns + ns = (M + 1) * ns from by ring] at h2

lemma tableLoop_spec (maxY w : ℚ) (r : ℕ → ℚ) (ns : ℕ) (row1 : List ℚ) :
    TableInv maxY w r ns row1 (row1.length * ns)
      (tableLoop maxY w r ns row1 ⟨0, [], 0, none, none⟩) := by
  unfold tableLoop
  exact tableLoop_inv maxY w r ns row1 row1.length _ (tableInv_init maxY w r ns row1)

lemma homTable_characterization (x0 : ℚ) (xs : List ℚ) (y0 : ℚ) (ys : List ℚ)
    (ns : ℕ) (r : ℕ → ℚ) (sqrt : ℚ → ℚ) :
    homTable (x0 :: xs) (y0 :: ys) ns r sqrt =
      (match tableFracAt (List.foldl max y0 ys) r ns (y0 :: ys) ((y0 :: ys).length * ns) with
       | none => .error .nameError
       | some q =>
         .ok ⟨q * (List.foldl max x0 xs - List.foldl min x0 xs) * List.foldl max y0 ys,
              some ((2 / 3 : ℚ) * (List.foldl max x0 xs - List.foldl min x0 xs) *
                List.foldl max y0 ys *
                sqrt ((q * (1 - q)) / (((y0 :: ys).length * ns : ℕ) : ℚ))),
              tableStaleHits (List.foldl max y0 ys) r ns (y0 :: ys) ((y0 :: ys).length * ns),
              (y0 :: ys).length * ns, 0⟩) := by
  obtain ⟨hk, hry, hh, hf, ha⟩ := tableLoop_spec (List.foldl max y0 ys)
    (List.foldl max x0 xs - List.foldl min x0 xs) r ns (y0 :: ys)
  simp only [homTable]
  rw [hf, ha, hh]
  have hlen : (tableLoop (List.foldl max y0 ys)
      (List.foldl max x0 xs - List.foldl min x0 xs) r ns (y0 :: ys)
      ⟨0, [], 0, none, none⟩).randomY.length = (y0 :: ys).length * ns := by
    rw [hry, drawsList_length]
  rw [hlen]
  cases hq : tableFracAt (List.foldl max y0 ys) r ns (y0 :: ys) ((y0 :: ys).length * ns) with
  | none => rfl
  | some q => rfl

/-- C5 counterexample: the claim (fresh sample tested, fraction and area
recomputed after every sample) is what `tableSpecRun` does, and on the table
`row0 = [0,1]`, `row1 = [2,1]` with one sample per point and unit draws
`1/4, 3/4` it returns area `1` with 1 hit, while the code keeps testing
`randomY[0]` and updating only on hits, returning area `2` with 2 hits. -/
theorem table_fresh_sample_claim_cex :
    monte_carlo_hit_or_miss (.table [0, 1] [2, 1]) 0 1 (1 / 100) 100000 1
        (fun k => if k = 0 then (1 / 4 : ℚ) else 3 / 4) (fun q => q) 5 =
      .ok ⟨2, some 0, 2, 2, 0⟩ ∧
    tableSpecRun [0, 1] [2, 1] 1 (fun k => if k = 0 then (1 / 4 : ℚ) else 3 / 4) (fun q => q) =
      .ok ⟨1, some (1 / 6), 1, 2, 0⟩ ∧
    ((2 : ℚ) ≠ 1 ∧ (2 : ℕ) ≠ 1) := by
  refine ⟨?_, ?_, by norm_num, by omega⟩
  · norm_num [monte_carlo_hit_or_miss, homTable, tableLoop, tableStep, uniform,
      List.range_succ, List.getD]
  · norm_num [tableSpecRun, tableSpecStep, uniform, List.range_succ, List.getD]

/-- C5 amended: in table mode, the sample tested at point `i`, inner index
`j` is `randomY[j]` — the `j`-th sample drawn overall, i.e. a draw from the
first point's batch (`uniform(0, maxY)` on unit draw `r j`), the fresh draw
only while `i = 0` — and the running fraction and area are updated only when
that test hits.  Consequently the final hit count is the number of pairs
`(i, j)` with `maxY * r j ≤ y i` (here `tableStaleHits` over `M * ns` global
sample indices), the sample count is `M * ns`, and with zero such hits the
fraction is never assigned, so the call fails with a `NameError`. -/
theorem table_stale_sample_hits :
    ∀ (x0 : ℚ) (xs : List ℚ) (y0 : ℚ) (ys : List ℚ) (ns : ℕ) (lo hi acc : ℚ)
      (maxIter : ℕ) (r : ℕ → ℚ) (sqrt : ℚ → ℚ) (fuel : ℕ),
      (∀ res : HomResult,
        monte_carlo_hit_or_miss (.table (x0 :: xs) (y0 :: ys)) lo hi acc maxIter ns r
            sqrt fuel = .ok res →
        res.hits = tableStaleHits (List.foldl max y0 ys) r ns (y0 :: ys)
          ((y0 :: ys).length * ns) ∧
        res.samples = (y0 :: ys).length * ns) ∧
      (tableStaleHits (List.foldl max y0 ys) r ns (y0 :: ys) ((y0 :: ys).length * ns) = 0 →
        monte_carlo_hit_or_miss (.table (x0 :: xs) (y0 :: ys)) lo hi acc maxIter ns r
            sqrt fuel = .error .nameError) := by
  intro x0 xs y0 ys ns lo hi acc maxIter r sqrt fuel
  constructor
  · intro res hres
    have h : homTable (x0 :: xs) (y0 :: ys) ns r sqrt = .ok res := hres
    rw [homTable_characterization] at h
    cases hq : tableFracAt (List.foldl max y0 ys) r ns (y0 :: ys) ((y0 :: ys).length * ns) with
    | none => rw [hq] at h; exact absurd h (by simp)
    | some q =>
      rw [hq] at h
      obtain rfl := Except.ok.inj h
      exact ⟨rfl, rfl⟩
  · intro hzero
    show homTable (x0 :: xs) (y0 :: ys) ns r sqrt = .error .nameError
    rw [homTable_characterization]
    have hnil : (List.range ((y0 :: ys).length * ns)).filter
        (tableStaleTest (List.foldl max y0 ys) r ns (y0 :: ys)) = [] :=
      List.length_eq_zero.mp hzero
    have hlast : tableLastHit (List.foldl max y0 ys) r ns (y0 :: ys)
        ((y0 :: ys).length * ns) = none := by
      unfold tableLastHit
      rw [hnil]
      rfl
    have hfrac : tableFracAt (List.foldl max y0 ys) r ns (y0 :: ys)
        ((y0 :: ys).length * ns) = none := by
      unfold tableFracAt
      rw [hlast]
    rw [hfrac]

/-- Witness for C5 amended: on the counterexample table the returned hit
count `2` is exactly `tableStaleHits` over the two global samples; and on a
table whose (stale) tests never hit — single point `y = -1`, all unit draws
`0` — the call fails with a `NameError`. -/
theorem table_stale_sample_hits_wit :
    (monte_carlo_hit_or_miss (.table [0, 1] [2, 1]) 0 1 (1 / 100) 100000 1
        (fun k => if k = 0 then (1 / 4 : ℚ) else 3 / 4) (fun q => q) 5 =
      .ok ⟨2, some 0, 2, 2, 0⟩ ∧
     HomResult.hits ⟨2, some 0, 2, 2, 0⟩ =
        tableStaleHits (List.foldl max 2 [1]) (fun k => if k = 0 then (1 / 4 : ℚ) else 3 / 4) 1
          ((2 : ℚ) :: [1]) (((2 : ℚ) :: [1]).length * 1) ∧
     HomResult.samples ⟨2, some 0, 2, 2, 0⟩ = ((2 : ℚ) :: [1]).length * 1) ∧
    monte_carlo_hit_or_miss (.table [0] [-1]) 0 1 (1 / 100) 100000 1 (fun _ => (0 : ℚ))
        (fun q => q) 9 = .error .nameError := by
  have hrun : monte_carlo_hit_or_miss (.table [0, 1] [2, 1]) 0 1 (1 / 100) 100000 1
      (fun k => if k = 0 then (1 / 4 : ℚ) else 3 / 4) (fun q => q) 5 =
      .ok ⟨2, some 0, 2, 2, 0⟩ := by
    norm_num [monte_carlo_hit_or_miss, homTable, tableLoop, tableStep, uniform,
      List.range_succ, List.getD]
  have h1 := (table_stale_sample_hits 0 [1] 2 [1] 1 0 1 (1 / 100) 100000
    (fun k => if k = 0 then (1 / 4 : ℚ) else 3 / 4) (fun q => q) 5).1 _ hrun
  refine ⟨⟨hrun, h1.1, h1.2⟩, ?_⟩
  refine (table_stale_sample_hits 0 [] (-1) [] 1 0 1 (1 / 100) 100000
    (fun _ => (0 : ℚ)) (fun q => q) 9).2 ?_
  norm_num [tableStaleHits, tableStaleTest, uniform, List.range_succ, List.getD]

/-- C6 counterexample: on `row0 = [0,1]`, `row1 = [2,1]`, one sample per
point, unit draws `3/4, 0`: the run returns 1 hit out of 2 samples but
epsilon `0` (computed from the fraction `1` recorded at the only hit),
whereas the claimed formula at `r = hits/T = 1/2` gives `1/6` (with the
identity model square root): the claimed epsilon differs from the code's. -/
theorem table_epsilon_final_ratio_cex :
    monte_carlo_hit_or_miss (.table [0, 1] [2, 1]) 0 1 (1 / 100) 100000 1
        (fun k => if k = 0 then (3 / 4 : ℚ) else 0) (fun q => q) 5 =
      .ok ⟨2, some 0, 1, 2, 0⟩ ∧
    (2 / 3 : ℚ) * (1 - 0) * 2 * ((fun q : ℚ => q) (((1 / 2 : ℚ) * (1 - 1 / 2)) / 2)) = 1 / 6 ∧
    some (0 : ℚ) ≠ some (1 / 6 : ℚ) := by
  refine ⟨?_, by norm_num, by norm_num⟩
  norm_num [monte_carlo_hit_or_miss, homTable, tableLoop, tableStep, uniform,
    List.range_succ, List.getD]

/-- C6 amended: table-mode epsilon is computed once at the end as
`(2/3) * (max(row0) - min(row0)) * maxY * sqrt(rho * (1 - rho) / T)` with
`T = M * numberSamples` total samples, but `rho` is the hit fraction
recorded at the *last hit* — hits up to and including that sample divided by
the number of samples drawn by then — not total hits over `T`. -/
theorem table_epsilon_last_hit_frac :
    ∀ (x0 : ℚ) (xs : List ℚ) (y0 : ℚ) (ys : List ℚ) (ns : ℕ) (lo hi acc : ℚ)
      (maxIter : ℕ) (r : ℕ → ℚ) (sqrt : ℚ → ℚ) (fuel : ℕ) (res : HomResult),
      monte_carlo_hit_or_miss (.table (x0 :: xs) (y0 :: ys)) lo hi acc maxIter ns r sqrt fuel =
        .ok res →
      ∃ g : ℕ,
        tableLastHit (List.foldl max y0 ys) r ns (y0 :: ys) ((y0 :: ys).length * ns) = some g ∧
        res.epsilon = some ((2 / 3 : ℚ) *
          (List.foldl max x0 xs - List.foldl min x0 xs) * List.foldl max y0 ys *
          sqrt ((((tableStaleHits (List.foldl max y0 ys) r ns (y0 :: ys) (g + 1) : ℚ) /
              ((g + 1 : ℕ) : ℚ)) *
            (1 - (tableStaleHits (List.foldl max y0 ys) r ns (y0 :: ys) (g + 1) : ℚ) /
              ((g + 1 : ℕ) : ℚ))) /
            (((y0 :: ys).length * ns : ℕ) : ℚ))) := by
  intro x0 xs y0 ys ns lo hi acc maxIter r sqrt fuel res hres
  have h : homTable (x0 :: xs) (y0 :: ys) ns r sqrt = .ok res := hres
  rw [homTable_characterization] at h
  unfold tableFracAt at h
  cases hlast : tableLastHit (List.foldl max y0 ys) r ns (y0 :: ys)
      ((y0 :: ys).length * ns) with
  | none => rw [hlast] at h; exact absurd h (by simp)
  | some g =>
    rw [hlast] at h
    obtain rfl := Except.ok.inj h
    exact ⟨g, rfl, rfl⟩

/-- Witness for C6 amended, at the counterexample input: the last (stale)
hit is at global sample 0, so the epsilon is built from the fraction `1/1`
recorded there. -/
theorem table_epsilon_last_hit_frac_wit :
    ∃ g : ℕ,
      tableLastHit (List.foldl max 2 [1]) (fun k => if k = 0 then (3 / 4 : ℚ) else 0) 1
        ((2 : ℚ) :: [1]) (((2 : ℚ) :: [1]).length * 1) = some g ∧
      HomResult.epsilon ⟨2, some 0, 1, 2, 0⟩ = some ((2 / 3 : ℚ) *
        (List.foldl max 0 [1] - List.foldl min 0 [1]) * List.foldl max 2 [1] *
        (fun q : ℚ => q)
          ((((tableStaleHits (List.foldl max 2 [1])
                (fun k => if k = 0 then (3 / 4 : ℚ) else 0) 1 ((2 : ℚ) :: [1]) (g + 1) : ℚ) /
              ((g + 1 : ℕ) : ℚ)) *
            (1 - (tableStaleHits (List.foldl max 2 [1])
                (fun k => if k = 0 then (3 / 4 : ℚ) else 0) 1 ((2 : ℚ) :: [1]) (g + 1) : ℚ) /
              ((g + 1 : ℕ) : ℚ))) /
            ((((2 : ℚ) :: [1]).length * 1 : ℕ) : ℚ))) := by
  have hrun : monte_carlo_hit_or_miss (.table [0, 1] [2, 1]) 0 1 (1 / 100) 100000 1
      (fun k => if k = 0 then (3 / 4 : ℚ) else 0) (fun q => q) 5 =
      .ok ⟨2, some 0, 1, 2, 0⟩ := by
    norm_num [monte_carlo_hit_or_miss, homTable, tableLoop, tableStep, uniform,
      List.range_succ, List.getD]
  exact table_epsilon_last_hit_frac 0 [1] 2 [1] 1 0 1 (1 / 100) 100000
    (fun k => if k = 0 then (3 / 4 : ℚ) else 0) (fun q => q) 5 _ hrun

/-! ## Callable-branch iteration structure (claims C7, C8) -/

lemma homIterStep_area (f : ℚ → ℚ) (lo hi : ℚ) (r : ℕ → ℚ) (sqrt : ℚ → ℚ) (st : HomSt) :
    (homIterStep f lo hi r sqrt st).area = some (homAreaBasis lo hi st) := rfl

lemma iterate_iterations (f : ℚ → ℚ) (lo hi : ℚ) (r : ℕ → ℚ) (sqrt : ℚ → ℚ) :
    ∀ (N : ℕ) (st : HomSt),
      ((homIterStep f lo hi r sqrt)^[N] st).iterations = st.iterations + N := by
  intro N
  induction N with
  | zero => intro st; simp
  | succ N ih =>
    intro st
    rw [Function.iterate_succ_apply', homIterStep_iterations, ih]
    omega

lemma iterate_randomX_length (f : ℚ → ℚ) (lo hi : ℚ) (r : ℕ → ℚ) (sqrt : ℚ → ℚ) :
    ∀ (N : ℕ) (st : HomSt),
      ((homIterStep f lo hi r sqrt)^[N] st).randomX.length = st.randomX.length + N := by
  intro N
  induction N with
  | zero => intro st; simp
  | succ N ih =>
    intro st
    rw [Function.iterate_succ_apply', homIterStep_randomX_length, ih]
    omega

lemma homLoop_ok_iterate (f : ℚ → ℚ) (lo hi acc : ℚ) (maxIter : ℕ) (r : ℕ → ℚ)
    (sqrt : ℚ → ℚ) :
    ∀ (fuel : ℕ) (st : HomSt) (res : HomResult),
      homLoop f lo hi acc maxIter r sqrt fuel st = .ok res →
      ∃ m : ℕ,
        geInfB ((homIterStep f lo hi r sqrt)^[m] st).epsilon acc = false ∧
        ((homIterStep f lo hi r sqrt)^[m] st).area = some res.area ∧
        ((homIterStep f lo hi r sqrt)^[m] st).epsilon = res.epsilon ∧
        ((homIterStep f lo hi r sqrt)^[m] st).hits = res.hits ∧
        ((homIterStep f lo hi r sqrt)^[m] st).randomX.length = res.samples ∧
        ((homIterStep f lo hi r sqrt)^[m] st).iterations = res.iterations := by
  intro fuel
  induction fuel with
  | zero => intro st res h; exact absurd h (by simp [homLoop])
  | succ n ih =>
    intro st res h
    rw [homLoop] at h
    by_cases hc : geInfB st.epsilon acc = true
    · rw [if_pos hc] at h
      by_cases hm : st.iterations = maxIter
      · rw [if_pos hm] at h; exact absurd h (by simp)
      · rw [if_neg hm] at h
        by_cases hz : st.randomX.length = 0
        · rw [if_pos hz] at h; exact absurd h (by simp)
        · rw [if_neg hz] at h
          obtain ⟨m, h1, h2, h3, h4, h5, h6⟩ := ih _ _ h
          refine ⟨m + 1, ?_, ?_, ?_, ?_, ?_, ?_⟩ <;>
            rw [Function.iterate_succ_apply] <;> assumption
    · rw [if_neg hc] at h
      cases harea : st.area with
      | none => rw [harea] at h; exact absurd h (by simp)
      | some a =>
        rw [harea] at h
        obtain rfl := Except.ok.inj h
        exact ⟨0, Bool.eq_false_iff.mpr hc, harea, rfl, rfl, rfl, rfl⟩

lemma homLoop_ok_iter_le (f : ℚ → ℚ) (lo hi acc : ℚ) (maxIter : ℕ) (r : ℕ → ℚ)
    (sqrt : ℚ → ℚ) :
    ∀ (fuel : ℕ) (st : HomSt) (res : HomResult), st.iterations ≤ maxIter →
      homLoop f lo hi acc maxIter r sqrt fuel st = .ok res → res.iterations ≤ maxIter := by
  intro fuel
  induction fuel with
  | zero => intro st res _ h; exact absurd h (by simp [homLoop])
  | succ n ih =>
    intro st res hle h
    rw [homLoop] at h
    by_cases hc : geInfB st.epsilon acc = true
    · rw [if_pos hc] at h
      by_cases hm : st.iterations = maxIter
      · rw [if_pos hm] at h; exact absurd h (by simp)
      · rw [if_neg hm] at h
        by_cases hz : st.randomX.length = 0
        · rw [if_pos hz] at h; exact absurd h (by simp)
        · rw [if_neg hz] at h
          refine ih _ _ ?_ h
          rw [homIterStep_iterations]
          omega
    · rw [if_neg hc] at h
      cases harea : st.area with
      | none => rw [harea] at h; exact absurd h (by simp)
      | some a =>
        rw [harea] at h
        obtain rfl := Except.ok.inj h
        exact hle

/-- C7 counterexample: the claim (each iteration draws first, then
recomputes, so the returned area reflects the final draw) is what
`homSpecRun` does.  For `f x = x` on `[0,1]`, one warm-up sample, unit draws
`1, 0, 1/2, 1` and threshold `1/2`, the code returns area `1` (computed
before the final miss was drawn) while the claimed order returns `1/2`
(reflecting the final miss). -/
theorem hom_draw_before_compute_cex :
    monte_carlo_hit_or_miss (.fn (fun x => x)) 0 1 (1 / 2) 100000 1
        (fun k => [1, 0, 1 / 2, 1].getD k 0) (fun q => q) 3 = .ok ⟨1, some 0, 1, 2, 1⟩ ∧
    homSpecRun (fun x => x) 0 1 (1 / 2) 100000 1
        (fun k => [1, 0, 1 / 2, 1].getD k 0) (fun q => q) 3 =
      .ok ⟨1 / 2, some (1 / 12), 1, 2, 1⟩ ∧
    (1 : ℚ) ≠ 1 / 2 := by
  refine ⟨?_, ?_, by norm_num⟩
  · norm_num [monte_carlo_hit_or_miss, homCallable, homLoop, homIterStep, homWarmX, homWarmY,
      homWarmXStep, homWarmYStep, homInitSt, uniform, geInfB, List.range_succ, List.getD,
      List.getLastD]
  · norm_num [homSpecRun, homSpecLoop, homSpecStep, homWarmX, homWarmY,
      homWarmXStep, homWarmYStep, homInitSt, uniform, geInfB, List.range_succ, List.getD,
      List.getLastD]

/-- C7 amended: each refinement iteration *first* recomputes the fraction,
epsilon and area from the samples cumulated so far and only *then* draws the
new x and y; hence a normal return after `N` iterations has drawn `ns + N`
samples but its area is `homAreaBasis` of the state after only `N - 1`
iterations — the final iteration's draw is not reflected in the result. -/
theorem hom_compute_before_draw :
    ∀ (f : ℚ → ℚ) (lo hi acc : ℚ) (maxIter ns : ℕ) (r : ℕ → ℚ) (sqrt : ℚ → ℚ) (fuel : ℕ)
      (res : HomResult),
      monte_carlo_hit_or_miss (.fn f) lo hi acc maxIter ns r sqrt fuel = .ok res →
      1 ≤ res.iterations ∧ res.samples = ns + res.iterations ∧
      res.area = homAreaBasis lo hi ((homIterStep f lo hi r sqrt)^[res.iterations - 1]
        (homWarmY f r ns (homWarmX f lo hi r ns homInitSt))) := by
  intro f lo hi acc maxIter ns r sqrt fuel res hres
  obtain ⟨m, h1, h2, h3, h4, h5, h6⟩ :=
    homLoop_ok_iterate f lo hi acc maxIter r sqrt fuel _ res hres
  have hm1 : 1 ≤ m := by
    rcases Nat.eq_zero_or_pos m with hm0 | h
    · subst hm0
      rw [Function.iterate_zero_apply, homWarm_epsilon] at h1
      simp [geInfB] at h1
    · exact h
  have hit : res.iterations = m := by
    rw [← h6, iterate_iterations, homWarm_iterations]
    omega
  have hsam : res.samples = ns + m := by
    rw [← h5, iterate_randomX_length, homWarm_randomX_length]
  have hm' : m - 1 + 1 = m := Nat.succ_pred_eq_of_pos hm1
  rw [← hm', Function.iterate_succ_apply', homIterStep_area] at h2
  refine ⟨by omega, by omega, ?_⟩
  rw [hit]
  exact (Option.some.inj h2).symm

/-- Witness for C7 amended, at the counterexample input: one refinement
iteration, two total samples, and the returned area `1` equals the area
basis of the state after zero refinement iterations (the warm-up state:
1 hit out of 1 sample under `maxY = 1`). -/
theorem hom_compute_before_draw_wit :
    monte_carlo_hit_or_miss (.fn (fun x => x)) 0 1 (1 / 2) 100000 1
        (fun k => [1, 0, 1 / 2, 1].getD k 0) (fun q => q) 3 = .ok ⟨1, some 0, 1, 2, 1⟩ ∧
    1 ≤ HomResult.iterations ⟨1, some 0, 1, 2, 1⟩ ∧
    HomResult.samples ⟨1, some 0, 1, 2, 1⟩ = 1 + HomResult.iterations ⟨1, some 0, 1, 2, 1⟩ ∧
    HomResult.area ⟨1, some 0, 1, 2, 1⟩ =
      homAreaBasis 0 1 ((homIterStep (fun x => x) 0 1 (fun k => [1, 0, 1 / 2, 1].getD k 0)
          (fun q => q))^[HomResult.iterations ⟨1, some 0, 1, 2, 1⟩ - 1]
        (homWarmY (fun x => x) (fun k => [1, 0, 1 / 2, 1].getD k 0) 1
          (homWarmX (fun x => x) 0 1 (fun k => [1, 0, 1 / 2, 1].getD k 0) 1 homInitSt))) := by
  have hrun : monte_carlo_hit_or_miss (.fn (fun x => x)) 0 1 (1 / 2) 100000 1
      (fun k => [1, 0, 1 / 2, 1].getD k 0) (fun q => q) 3 = .ok ⟨1, some 0, 1, 2, 1⟩ := by
    norm_num [monte_carlo_hit_or_miss, homCallable, homLoop, homIterStep, homWarmX, homWarmY,
      homWarmXStep, homWarmYStep, homInitSt, uniform, geInfB, List.range_succ, List.getD,
      List.getLastD]
  have h := hom_compute_before_draw (fun x => x) 0 1 (1 / 2) 100000 1
    (fun k => [1, 0, 1 / 2, 1].getD k 0) (fun q => q) 3 _ hrun
  exact ⟨hrun, h.1, h.2.1, h.2.2⟩

/-- C8: in callable mode, after `N` refinement-loop iterations the length of
the x-sample list (the denominator basis of the hit fraction) is exactly the
initial `numberSamples` plus `N`; and on any normal return the iteration
counter never exceeds `maximumIterations`. -/
theorem hom_sample_growth_and_iter_cap :
    (∀ (f : ℚ → ℚ) (lo hi : ℚ) (ns : ℕ) (r : ℕ → ℚ) (sqrt : ℚ → ℚ) (N : ℕ),
      ((homIterStep f lo hi r sqrt)^[N]
        (homWarmY f r ns (homWarmX f lo hi r ns homInitSt))).randomX.length = ns + N) ∧
    (∀ (f : ℚ → ℚ) (lo hi acc : ℚ) (maxIter ns : ℕ) (r : ℕ → ℚ) (sqrt : ℚ → ℚ) (fuel : ℕ)
      (res : HomResult),
      monte_carlo_hit_or_miss (.fn f) lo hi acc maxIter ns r sqrt fuel = .ok res →
      res.iterations ≤ maxIter) := by
  constructor
  · intro f lo hi ns r sqrt N
    rw [iterate_randomX_length, homWarm_randomX_length]
  · intro f lo hi acc maxIter ns r sqrt fuel res hres
    refine homLoop_ok_iter_le f lo hi acc maxIter r sqrt fuel _ res ?_ hres
    rw [homWarm_iterations]
    omega

/-- Witness for C8, at a concrete converging run: one refinement iteration,
iteration counter `1 ≤ 100000`. -/
theorem hom_sample_growth_and_iter_cap_wit :
    monte_carlo_hit_or_miss (.fn (fun _ => 1)) 0 1 1 100000 1 (fun _ => 1 / 2)
        (fun q => q) 3 = .ok ⟨1, some 0, 2, 2, 1⟩ ∧
    HomResult.iterations ⟨1, some 0, 2, 2, 1⟩ ≤ 100000 := by
  have hrun : monte_carlo_hit_or_miss (.fn (fun _ => 1)) 0 1 1 100000 1 (fun _ => 1 / 2)
      (fun q => q) 3 = .ok ⟨1, some 0, 2, 2, 1⟩ := by
    norm_num [monte_carlo_hit_or_miss, homCallable, homLoop, homIterStep, homWarmX, homWarmY,
      homWarmXStep, homWarmYStep, homInitSt, uniform, geInfB, List.range_succ, List.getD,
      List.getLastD]
  exact ⟨hrun, hom_sample_growth_and_iter_cap.2 _ _ _ _ _ _ _ _ _ _ hrun⟩
